import Mathlib

/-!
Verification of the kaizen-dedup-fix repository.

Shallow embedding of:
- src/src/dedup/persistent-dedup.ts (two-tier message dedup store)
- src/src/dedup/schema.sql (durable table and its unique index)
- src/unnamed/part_000 (message-dedup.ts: computeMessageHash with whitespace
  normalization)
- src/unnamed/part_001 (stopped-agent-guard.ts: filterDispatchableAgents,
  safeReconcileOnStartup, guardedStartAgent)

Modelling conventions:
- Timestamps are milliseconds since the epoch as Nat. JavaScript subtraction
  can go negative where Nat subtraction truncates at 0; at every place the
  source compares a difference against a TTL, a negative JS difference and a
  truncated 0 fall on the same side of the comparison, so behaviour agrees.
- The JS Map is modelled as an insertion-ordered association list:
  set on an existing key updates the value in place (JS Maps keep the original
  insertion position), set on a fresh key appends, iteration order is list
  order (oldest inserted first).
- The PostgreSQL message_dedup table is a list of rows; the unique index
  idx_message_dedup_route_hash on (from_agent_id, to_agent_id, content_hash)
  makes INSERT .. ON CONFLICT DO NOTHING a conditional insert that is rejected
  exactly when a row with the same triple is present (the index has no
  predicate, so expiry does not matter for conflicts).
- Fallible DB access is modelled with a dbUp flag in the state: when it is
  false every query throws and the source's catch handlers run. The adapter
  itself is taken as registered (registerDbAdapter was called at integration
  time), so getDb never throws.
- crypto.randomBytes for the row id is modelled by passing the generated id as
  an explicit argument; it only feeds the primary-key column and no claim
  depends on it.
- SHA-256 (node:crypto createHash("sha256")) is implemented concretely below
  (FIPS 180-4 over UTF-8 bytes), so both hash functions of the repository are
  executable.
-/

/-! ## Agent model (stopped-agent-guard.ts) -/

/-- Status union of AgentLight in stopped-agent-guard.ts. -/
inductive AgentStatus where
  | idle
  | thinking
  | executing
  | error
  | stopped
deriving DecidableEq, Repr

/-- AgentLight record (id, name, role, status); lastActiveAt is unused by the
guards and omitted. -/
structure AgentLight where
  id : String
  name : String
  role : String
  status : AgentStatus
deriving DecidableEq, Repr

/-- Guard 1 of stopped-agent-guard.ts: drops agents whose status is stopped
from the dispatch pool (the console.log side effect carries no data used
elsewhere and is not modelled). -/
def filterDispatchableAgents (agents : List AgentLight) : List AgentLight :=
  agents.filter (fun a => a.status ≠ AgentStatus.stopped)

/-- Result record of safeReconcileOnStartup, extended with the two injected
effect callbacks recorded as lists: updates collects every
updateAgentStatus(id, status) call in order, activities collects every
insertActivity call as (agentId, type). -/
structure ReconcileResult where
  reset : List String
  skipped : List String
  updates : List (String × AgentStatus)
  activities : List (String × String)
deriving DecidableEq, Repr

/-- staleStatuses set of safeReconcileOnStartup: new Set(["thinking", "executing"]). -/
def staleStatuses (s : AgentStatus) : Bool :=
  s = AgentStatus.thinking ∨ s = AgentStatus.executing

/-- Guard 2 of stopped-agent-guard.ts: safeReconcileOnStartup. Stopped agents
are pushed to skipped and skipped over; agents with a stale status
(thinking/executing) get updateAgentStatus(id, "idle"), an insertActivity
record of type "agent_stopped", and are pushed to reset; all other agents are
untouched. The loop is modelled by structural recursion producing the same
per-agent order as the source's for-loop pushes. -/
def safeReconcileOnStartup : List AgentLight → ReconcileResult
  | [] => ⟨[], [], [], []⟩
  | agent :: rest =>
    let r := safeReconcileOnStartup rest
    if agent.status = AgentStatus.stopped then
      { r with skipped := agent.id :: r.skipped }
    else if staleStatuses agent.status then
      { r with
        reset := agent.id :: r.reset
        updates := (agent.id, AgentStatus.idle) :: r.updates
        activities := (agent.id, "agent_stopped") :: r.activities }
    else
      r

/-- Error message thrown by guardedStartAgent when getAgent returns undefined. -/
def guardedStartNotFoundMsg (agentId : String) : String :=
  "guardedStartAgent: agent " ++ agentId ++ " not found"

/-- Error message thrown by guardedStartAgent for a stopped agent, built by
the same concatenation as the source's template literal. -/
def guardedStartRefuseMsg (name agentId : String) : String :=
  "guardedStartAgent: refusing to start stopped agent " ++ name ++ "(" ++ agentId ++ "). " ++
    "Stopped agents must be manually restarted. This prevents watchdog from " ++
    "auto-recovering deliberately retired agents (e.g. VzKdJ89cpXOcS7EiC_n99)."

/-- Outcome of guardedStartAgent: either the underlying startAgent callback
was invoked (startedWith lists the delegated calls, in order, with the id each
one received) or an Error was thrown with the given message. -/
inductive GuardedStartOutcome where
  | startedWith (ids : List String)
  | failed (msg : String)
deriving DecidableEq, Repr

/-- Guard 3 of stopped-agent-guard.ts: guardedStartAgent. Fetches the agent
via the injected getAgent, throws for a missing agent, throws the refusal
message for a stopped agent, and otherwise awaits startAgent(agentId) exactly
once. -/
def guardedStartAgent (getAgent : String → Option AgentLight) (agentId : String) :
    GuardedStartOutcome :=
  match getAgent agentId with
  | none => GuardedStartOutcome.failed (guardedStartNotFoundMsg agentId)
  | some agent =>
    if agent.status = AgentStatus.stopped then
      GuardedStartOutcome.failed (guardedStartRefuseMsg agent.name agentId)
    else
      GuardedStartOutcome.startedWith [agentId]

/-! ## JS Map model (insertion-ordered association list) -/

/-- Lookup in the insertion-ordered map (Map.prototype.get). -/
def mapGet (cache : List (String × Nat)) (key : String) : Option Nat :=
  match cache.find? (fun e => e.1 = key) with
  | some e => some e.2
  | none => none

/-- Map.prototype.set: updates in place when the key is present (a JS Map
keeps the original insertion position), appends otherwise. -/
def mapSet (cache : List (String × Nat)) (key : String) (v : Nat) :
    List (String × Nat) :=
  match cache with
  | [] => [(key, v)]
  | e :: rest => if e.1 = key then (key, v) :: rest else e :: mapSet rest key v

/-! ## Dedup store model (persistent-dedup.ts and schema.sql) -/

/-- DedupMeta of persistent-dedup.ts (taskId and seq are nullable). -/
structure DedupMeta where
  taskId : Option String
  eventHash : String
  seq : Option String
deriving DecidableEq, Repr

/-- DedupCheckResult of persistent-dedup.ts; the optional reason field. -/
structure DedupCheckResult where
  isDuplicate : Bool
  reason : Option String
deriving DecidableEq, Repr

/-- Row of the message_dedup table (schema.sql). Timestamps in epoch ms. -/
structure DedupRow where
  id : String
  fromAgentId : String
  toAgentId : String
  contentHash : String
  taskId : Option String
  seq : Option String
  seenAt : Nat
  expiresAt : Nat
deriving DecidableEq, Repr

/-- Combined state the module closes over: the in-memory L1 Map, the
message_dedup table behind the registered DbAdapter, and whether DB queries
currently succeed (dbUp = false makes every db.query reject, exercising the
source's catch blocks). -/
structure DedupState where
  cache : List (String × Nat)
  table : List DedupRow
  dbUp : Bool
deriving DecidableEq, Repr

def ROUTING_DEDUP_TTL_MS : Nat := 72 * 60 * 60 * 1000

def ROUTING_DEDUP_MAX_KEYS : Nat := 10000

/-- While-loop of evictExpired: while (size > MAX) delete the first
(oldest-inserted) key. -/
def evictOverCapacity : List (String × Nat) → List (String × Nat)
  | [] => []
  | e :: rest =>
    if (e :: rest).length > ROUTING_DEDUP_MAX_KEYS then evictOverCapacity rest
    else e :: rest

/-- evictExpired of persistent-dedup.ts: first pass deletes every entry with
nowMs - seenAt > ROUTING_DEDUP_TTL_MS (iterating the Map in insertion order;
deleting the entry under the iterator is equivalent to a filter), then the
while loop evicts oldest-inserted entries until size ≤ ROUTING_DEDUP_MAX_KEYS. -/
def evictExpired (nowMs : Nat) (cache : List (String × Nat)) : List (String × Nat) :=
  evictOverCapacity (cache.filter (fun e => nowMs - e.2 ≤ ROUTING_DEDUP_TTL_MS))

/-- buildDedupKey of persistent-dedup.ts: the template literal
from->to|task:taskId-or-none|hash:eventHash|seq:seq-or-none. -/
def buildDedupKey (fromAgentId toAgentId : String) (meta : DedupMeta) : String :=
  fromAgentId ++ "->" ++ toAgentId ++ "|task:" ++ meta.taskId.getD "none" ++
    "|hash:" ++ meta.eventHash ++ "|seq:" ++ meta.seq.getD "none"

/-- Conflict test of the INSERT .. ON CONFLICT (from_agent_id, to_agent_id,
content_hash) DO NOTHING: the unique index idx_message_dedup_route_hash has no
WHERE predicate, so any existing row with the same triple conflicts, expired
or not. -/
def rowConflicts (table : List DedupRow) (fromAgentId toAgentId contentHash : String) :
    Bool :=
  table.any (fun r =>
    r.fromAgentId = fromAgentId ∧ r.toAgentId = toAgentId ∧ r.contentHash = contentHash)

/-- checkAndRecordDedup of persistent-dedup.ts. nowMs models Date.now() (and
the database NOW() of the same instant), freshId models the
dedup_(randomBytes) id. Returns the DedupCheckResult together with the
successor state. -/
def checkAndRecordDedup (nowMs : Nat) (fromAgentId toAgentId : String)
    (meta : DedupMeta) (ttlMs : Nat) (freshId : String) (st : DedupState) :
    DedupCheckResult × DedupState :=
  let key := buildDedupKey fromAgentId toAgentId meta
  let cache1 := evictExpired nowMs st.cache
  match mapGet cache1 key with
  | some seenAt =>
    if nowMs - seenAt ≤ ttlMs then
      (⟨true, some ("L1 cache hit (seen " ++ toString ((nowMs - seenAt + 500) / 1000) ++ "s ago)")⟩,
        { st with cache := cache1 })
    else
      checkAndRecordDb nowMs fromAgentId toAgentId meta ttlMs freshId key cache1 st
  | none =>
    checkAndRecordDb nowMs fromAgentId toAgentId meta ttlMs freshId key cache1 st
where
  /-- L2 phase of checkAndRecordDedup: the INSERT .. ON CONFLICT DO NOTHING
  RETURNING id query and the catch handler. -/
  checkAndRecordDb (nowMs : Nat) (fromAgentId toAgentId : String) (meta : DedupMeta)
      (ttlMs : Nat) (freshId key : String) (cache1 : List (String × Nat))
      (st : DedupState) : DedupCheckResult × DedupState :=
    if st.dbUp then
      if rowConflicts st.table fromAgentId toAgentId meta.eventHash then
        (⟨true, some "DB conflict — already seen in persistent store"⟩,
          { st with cache := mapSet cache1 key nowMs })
      else
        (⟨false, none⟩,
          { st with
            cache := mapSet cache1 key nowMs
            table := st.table ++
              [⟨freshId, fromAgentId, toAgentId, meta.eventHash, meta.taskId,
                meta.seq, nowMs, nowMs + ttlMs⟩] })
    else
      (⟨false, none⟩, { st with cache := mapSet cache1 key nowMs })

/-- JS truthiness conversion applied by loadStartupDedupGuard to the nullable
task_id and seq columns: row.task_id ? String(row.task_id) : null maps both
NULL and the empty string to null. -/
def truthyOpt : Option String → Option String
  | none => none
  | some s => if s = "" then none else some s

/-- loadStartupDedupGuard of persistent-dedup.ts: SELECT of live rows seen
within the window, ORDER BY seen_at DESC, LIMIT 20000, each inserted into the
in-memory Map keyed by buildDedupKey with its original seen_at. The catch
handler makes a failing query a no-op (non-fatal, cache stays as it was). -/
def loadStartupDedupGuard (nowMs windowMs : Nat) (st : DedupState) : DedupState :=
  if st.dbUp then
    { st with
      cache := (((st.table.filter (fun r =>
            r.expiresAt > nowMs ∧ r.seenAt > nowMs - windowMs)).insertionSort
              (fun r s => r.seenAt ≥ s.seenAt)).take 20000).foldl
        (fun c r =>
          mapSet c
            (buildDedupKey r.fromAgentId r.toAgentId
              ⟨truthyOpt r.taskId, r.contentHash, truthyOpt r.seq⟩)
            r.seenAt) st.cache }
  else
    st

/-- pruneExpiredDedup of persistent-dedup.ts: DELETE FROM message_dedup WHERE
expires_at < NOW() RETURNING id; returns the number of deleted rows, or 0 from
the catch handler when the query fails. The in-memory cache is untouched. -/
def pruneExpiredDedup (nowMs : Nat) (st : DedupState) : Nat × DedupState :=
  if st.dbUp then
    ((st.table.filter (fun r => r.expiresAt < nowMs)).length,
      { st with table := st.table.filter (fun r => ¬ r.expiresAt < nowMs) })
  else
    (0, st)

/-! ## Content fingerprinting (message-dedup.ts and hashContent) -/

/-- Whitespace class of the JavaScript regexp \s (also the character set
String.prototype.trim removes): ASCII space, tab, LF, VT, FF, CR, NBSP, the
Unicode space separators, LINE/PARAGRAPH SEPARATOR and the BOM; U+0085 NEL is
not matched by \s; included are U+1680, U+2000..200A, U+2028,
U+2029, U+202F, U+205F, U+3000 and U+FEFF. -/
def isJsWs (c : Char) : Bool :=
  c = ' ' ∨ c = '\t' ∨ c = '\n' ∨ c.toNat = 11 ∨ c.toNat = 12 ∨ c = '\r' ∨
    c.toNat = 0xa0 ∨ c.toNat = 0x1680 ∨ (0x2000 ≤ c.toNat ∧ c.toNat ≤ 0x200a) ∨
    c.toNat = 0x2028 ∨ c.toNat = 0x2029 ∨ c.toNat = 0x202f ∨ c.toNat = 0x205f ∨
    c.toNat = 0x3000 ∨ c.toNat = 0xfeff

/-- Whether the list starts with a whitespace character (lookahead used to
detect the end of a maximal whitespace run). -/
def startsWs : List Char → Bool
  | [] => false
  | c :: _ => isJsWs c

/-- Whether the list ends with a whitespace character. -/
def endsWs (l : List Char) : Bool := startsWs l.reverse

/-- content.replace of message-dedup.ts with pattern \s+ (global) and
replacement a single space: every maximal whitespace run becomes one space
(a whitespace character is dropped when more whitespace follows, and becomes
the single replacement space at the end of its run). -/
def collapseWs : List Char → List Char
  | [] => []
  | c :: cs =>
    if isJsWs c then
      if startsWs cs then collapseWs cs else ' ' :: collapseWs cs
    else
      c :: collapseWs cs

/-- Prepends a character to the first token (used when a non-whitespace
character is followed by more of the same token). -/
def consTok (c : Char) : List (List Char) → List (List Char)
  | [] => [[c]]
  | tok :: toks => (c :: tok) :: toks

/-- Maximal non-whitespace runs of the list, in order. Two contents differ
only in whitespace runs (including leading/trailing whitespace) exactly when
their wsTokens agree; this is the formalization of the claim's hypothesis. -/
def wsTokens : List Char → List (List Char)
  | [] => []
  | c :: cs =>
    if isJsWs c then wsTokens cs
    else if startsWs cs then [c] :: wsTokens cs
    else consTok c (wsTokens cs)

/-- Tail of the single-space join: each further token preceded by one space. -/
def joinRest : List (List Char) → List Char
  | [] => []
  | t :: ts => ' ' :: t ++ joinRest ts

/-- Tokens joined with single spaces (the canonical normalized content). -/
def joinTokens : List (List Char) → List Char
  | [] => []
  | t :: ts => t ++ joinRest ts

/-- String.prototype.trim: strips leading and trailing whitespace. -/
def trimWs (l : List Char) : List Char :=
  ((l.dropWhile isJsWs).reverse.dropWhile isJsWs).reverse

/-- Normalization pipeline of computeMessageHash:
content.replace(PATTERN, " ").trim() for the whitespace-run pattern. -/
def normalizeWs (s : String) : String :=
  String.mk (trimWs (collapseWs s.data))

/-! ## SHA-256 (FIPS 180-4), executable over byte lists

The node:crypto createHash("sha256") digest used by both hashContent
(persistent-dedup.ts) and computeMessageHash (message-dedup.ts). Words are
Nat reduced mod 2^32. -/

def w32 (x : Nat) : Nat := x % 4294967296

def rotr32 (n x : Nat) : Nat := w32 (x / 2 ^ n + x % 2 ^ n * 2 ^ (32 - n))

def shr32 (n x : Nat) : Nat := x / 2 ^ n

def bsig0 (x : Nat) : Nat := (rotr32 2 x) ^^^ (rotr32 13 x) ^^^ (rotr32 22 x)

def bsig1 (x : Nat) : Nat := (rotr32 6 x) ^^^ (rotr32 11 x) ^^^ (rotr32 25 x)

def ssig0 (x : Nat) : Nat := (rotr32 7 x) ^^^ (rotr32 18 x) ^^^ (shr32 3 x)

def ssig1 (x : Nat) : Nat := (rotr32 17 x) ^^^ (rotr32 19 x) ^^^ (shr32 10 x)

def chBits (x y z : Nat) : Nat := (x &&& y) ^^^ ((x ^^^ 4294967295) &&& z)

def majBits (x y z : Nat) : Nat := (x &&& y) ^^^ (x &&& z) ^^^ (y &&& z)

def sha256K : List Nat :=
  [1116352408, 1899447441, 3049323471, 3921009573, 961987163, 1508970993,
   2453635748, 2870763221, 3624381080, 310598401, 607225278, 1426881987,
   1925078388, 2162078206, 2614888103, 3248222580, 3835390401, 4022224774,
   264347078, 604807628, 770255983, 1249150122, 1555081692, 1996064986,
   2554220882, 2821834349, 2952996808, 3210313671, 3336571891, 3584528711,
   113926993, 338241895, 666307205, 773529912, 1294757372, 1396182291,
   1695183700, 1986661051, 2177026350, 2456956037, 2730485921, 2820302411,
   3259730800, 3345764771, 3516065817, 3600352804, 4094571909, 275423344,
   430227734, 506948616, 659060556, 883997877, 958139571, 1322822218,
   1537002063, 1747873779, 1955562222, 2024104815, 2227730452, 2361852424,
   2428436474, 2756734187, 3204031479, 3329325298]

def sha256H0 : List Nat :=
  [1779033703, 3144134277, 1013904242, 2773480762,
   1359893119, 2600822924, 528734635, 1541459225]

/-- Big-endian byte expansion of a word to the given number of bytes. -/
def bytesBE : Nat → Nat → List Nat
  | 0, _ => []
  | n + 1, x => bytesBE n (x / 256) ++ [x % 256]

/-- SHA-256 padding: 0x80, zeros to 56 mod 64, 8-byte big-endian bit length. -/
def sha256pad (msg : List Nat) : List Nat :=
  msg ++ [0x80] ++ List.replicate ((64 - (msg.length + 9) % 64) % 64) 0 ++
    bytesBE 8 (msg.length * 8)

/-- Splits a list into 64-byte blocks; structural recursion on a fuel bound
(the list length) so the definition reduces definitionally. -/
def chunks64Go : Nat → List Nat → List (List Nat)
  | 0, _ => []
  | _, [] => []
  | fuel + 1, l => l.take 64 :: chunks64Go fuel (l.drop 64)

/-- Splits the padded message into 64-byte blocks. -/
def chunks64 (l : List Nat) : List (List Nat) :=
  chunks64Go l.length l

/-- Big-endian 32-bit words of a block. -/
def words16 : List Nat → List Nat
  | b0 :: b1 :: b2 :: b3 :: rest => (((b0 * 256 + b1) * 256 + b2) * 256 + b3) :: words16 rest
  | _ => []

/-- Message-schedule extension: appends n further words W[i] =
ssig1 W[i-2] + W[i-7] + ssig0 W[i-15] + W[i-16] (mod 2^32). -/
def extendW : Nat → List Nat → List Nat
  | 0, w => w
  | n + 1, w =>
    let i := w.length
    extendW n (w ++ [w32 (ssig1 (w.getD (i - 2) 0) + w.getD (i - 7) 0 +
      ssig0 (w.getD (i - 15) 0) + w.getD (i - 16) 0)])

/-- Working variables a..h of the compression loop. -/
structure Sha256Work where
  a : Nat
  b : Nat
  c : Nat
  d : Nat
  e : Nat
  f : Nat
  g : Nat
  hh : Nat

/-- One compression round for constant k and schedule word wi. -/
def sha256Round (s : Sha256Work) (kw : Nat × Nat) : Sha256Work :=
  let t1 := s.hh + bsig1 s.e + chBits s.e s.f s.g + kw.1 + kw.2
  let t2 := bsig0 s.a + majBits s.a s.b s.c
  ⟨w32 (t1 + t2), s.a, s.b, s.c, w32 (s.d + t1), s.e, s.f, s.g⟩

/-- Compression of one 64-byte block into the running hash value. -/
def sha256Block (h : List Nat) (block : List Nat) : List Nat :=
  let w := extendW 48 (words16 block)
  let s0 : Sha256Work :=
    ⟨h.getD 0 0, h.getD 1 0, h.getD 2 0, h.getD 3 0,
     h.getD 4 0, h.getD 5 0, h.getD 6 0, h.getD 7 0⟩
  let s := (sha256K.zip w).foldl sha256Round s0
  [w32 (h.getD 0 0 + s.a), w32 (h.getD 1 0 + s.b), w32 (h.getD 2 0 + s.c),
   w32 (h.getD 3 0 + s.d), w32 (h.getD 4 0 + s.e), w32 (h.getD 5 0 + s.f),
   w32 (h.getD 6 0 + s.g), w32 (h.getD 7 0 + s.hh)]

/-- SHA-256 digest (32 bytes) of a byte list. -/
def sha256Bytes (msg : List Nat) : List Nat :=
  (((chunks64 (sha256pad msg)).foldl sha256Block sha256H0).map (bytesBE 4)).flatten

/-- Lowercase hex digit. -/
def hexDigit (n : Nat) : Char :=
  if n < 10 then Char.ofNat (48 + n) else Char.ofNat (87 + n)

/-- Lowercase hex rendering of a byte list (digest("hex")). -/
def toHex (bytes : List Nat) : List Char :=
  bytes.foldr (fun b acc => hexDigit (b / 16) :: hexDigit (b % 16) :: acc) []

/-- UTF-8 encoding of one scalar value (node Buffer.from(s, "utf8")). -/
def utf8EncodeChar (c : Char) : List Nat :=
  let n := c.toNat
  if n < 0x80 then [n]
  else if n < 0x800 then [0xc0 + n / 64, 0x80 + n % 64]
  else if n < 0x10000 then [0xe0 + n / 4096, 0x80 + n / 64 % 64, 0x80 + n % 64]
  else [0xf0 + n / 262144, 0x80 + n / 4096 % 64, 0x80 + n / 64 % 64, 0x80 + n % 64]

/-- UTF-8 encoding of a string as a byte list. -/
def utf8Encode (s : String) : List Nat :=
  (s.data.map utf8EncodeChar).flatten

/-- hashContent of persistent-dedup.ts:
createHash("sha256").update(content).digest("hex").slice(0, 32). Note there is
no whitespace normalization on this path. -/
def hashContent (content : String) : String :=
  String.mk ((toHex (sha256Bytes (utf8Encode content))).take 32)

/-- computeMessageHash of message-dedup.ts (src/unnamed/part_000):
createHash("sha256") over the template literal toAgentId::normalized, full hex
digest, where normalized collapses whitespace runs and trims. -/
def computeMessageHash (toAgentId content : String) : String :=
  String.mk (toHex (sha256Bytes (utf8Encode (toAgentId ++ "::" ++ normalizeWs content))))

/-- Substring containment on strings, used to state that an error message
names the agent and states the policy. -/
def strContainsSub (s sub : String) : Prop :=
  ∃ pre suf : String, s = pre ++ sub ++ suf

/-- Sequence of further checkAndRecordDedup calls with the same inputs,
threading the state; models "every subsequent call". -/
def runSameCalls (fromAgentId toAgentId : String) (meta : DedupMeta) (ttlMs : Nat) :
    List (Nat × String) → DedupState → DedupState
  | [], st => st
  | c :: rest, st =>
    runSameCalls fromAgentId toAgentId meta ttlMs rest
      (checkAndRecordDedup c.1 fromAgentId toAgentId meta ttlMs c.2 st).2

/-- Row family for the capacity counterexample: 10,001 live rows with
pairwise-distinct identities (the from_agent_id lengths differ). -/
def c9Row (i : Nat) : DedupRow :=
  ⟨"row", String.mk (List.replicate i 'a'), "agentB", "h1", none, none, 5, 100⟩

/-- Concrete table of 10,001 live rows. -/
def c9Table : List DedupRow := (List.range 10001).map c9Row

/-! ## Lemmas and claim theorems for the stopped-agent guards -/

/-- Skipped list of safeReconcileOnStartup: exactly the ids of the stopped
agents, in input order. -/
theorem reconcile_skipped_eq (agents : List AgentLight) :
    (safeReconcileOnStartup agents).skipped =
      (agents.filter (fun a => a.status = AgentStatus.stopped)).map AgentLight.id := by
  induction agents with
  | nil => rfl
  | cons b rest ih =>
    simp only [safeReconcileOnStartup, List.filter_cons]
    by_cases hb : b.status = AgentStatus.stopped
    · simp [hb, ih]
    · by_cases hs : staleStatuses b.status
      · simp [hb, hs, ih]
      · simp [hb, hs, ih]

/-- Reset list of safeReconcileOnStartup: exactly the ids of the agents with a
stale (thinking/executing) status, in input order; the stopped branch never
contributes because stopped is not a stale status. -/
theorem reconcile_reset_eq (agents : List AgentLight) :
    (safeReconcileOnStartup agents).reset =
      (agents.filter (fun a => staleStatuses a.status)).map AgentLight.id := by
  induction agents with
  | nil => rfl
  | cons b rest ih =>
    simp only [safeReconcileOnStartup, List.filter_cons]
    by_cases hb : b.status = AgentStatus.stopped
    · simp [hb, ih, staleStatuses]
    · by_cases hs : staleStatuses b.status
      · simp [hb, hs, ih]
      · simp [hb, hs, ih]

/-- updateAgentStatus calls of safeReconcileOnStartup: one (id, idle) update
per stale-status agent, nothing else. -/
theorem reconcile_updates_eq (agents : List AgentLight) :
    (safeReconcileOnStartup agents).updates =
      (agents.filter (fun a => staleStatuses a.status)).map
        (fun a => (a.id, AgentStatus.idle)) := by
  induction agents with
  | nil => rfl
  | cons b rest ih =>
    simp only [safeReconcileOnStartup, List.filter_cons]
    by_cases hb : b.status = AgentStatus.stopped
    · simp [hb, ih, staleStatuses]
    · by_cases hs : staleStatuses b.status
      · simp [hb, hs, ih]
      · simp [hb, hs, ih]

/-- C7: for every input list of agents (with the ids pairwise distinct, as a
directory listing has), safeReconcileOnStartup puts every stopped agent into
skipped, never into reset, and issues no status update for it; and puts every
thinking or executing agent into reset with an updateAgentStatus(id, idle)
call. -/
theorem reconcile_stopped_sticky (agents : List AgentLight)
    (hids : (agents.map AgentLight.id).Nodup) :
    ∀ a ∈ agents,
      (a.status = AgentStatus.stopped →
        a.id ∈ (safeReconcileOnStartup agents).skipped ∧
        a.id ∉ (safeReconcileOnStartup agents).reset ∧
        ∀ s, (a.id, s) ∉ (safeReconcileOnStartup agents).updates) ∧
      ((a.status = AgentStatus.thinking ∨ a.status = AgentStatus.executing) →
        a.id ∈ (safeReconcileOnStartup agents).reset ∧
        (a.id, AgentStatus.idle) ∈ (safeReconcileOnStartup agents).updates) := by
  intro a ha
  constructor
  · intro hstop
    refine ⟨?_, ?_, ?_⟩
    · rw [reconcile_skipped_eq]
      exact List.mem_map_of_mem _ (List.mem_filter.mpr ⟨ha, by simp [hstop]⟩)
    · rw [reconcile_reset_eq]
      intro hmem
      obtain ⟨ag, hagf, hagid⟩ := List.mem_map.mp hmem
      obtain ⟨hagmem, hstale⟩ := List.mem_filter.mp hagf
      have heq : ag = a := List.inj_on_of_nodup_map hids hagmem ha hagid
      subst heq
      rw [hstop] at hstale
      simp [staleStatuses] at hstale
    · intro s hmem
      rw [reconcile_updates_eq] at hmem
      obtain ⟨ag, hagf, hagid⟩ := List.mem_map.mp hmem
      obtain ⟨hagmem, hstale⟩ := List.mem_filter.mp hagf
      have hid : ag.id = a.id := congrArg Prod.fst hagid
      have heq : ag = a := List.inj_on_of_nodup_map hids hagmem ha hid
      subst heq
      rw [hstop] at hstale
      simp [staleStatuses] at hstale
  · intro hstale
    have hs : staleStatuses a.status := by
      rcases hstale with h | h <;> simp [staleStatuses, h]
    constructor
    · rw [reconcile_reset_eq]
      exact List.mem_map_of_mem _ (List.mem_filter.mpr ⟨ha, hs⟩)
    · rw [reconcile_updates_eq]
      exact List.mem_map_of_mem _ (List.mem_filter.mpr ⟨ha, hs⟩)

/-- Witness for C7 at a concrete two-agent list: the stopped agent lands in
skipped and not in reset, the thinking agent lands in reset with an idle
update. -/
theorem reconcile_stopped_sticky_witness :
    "jin" ∈ (safeReconcileOnStartup
        [⟨"jin", "Jin", "dev", AgentStatus.stopped⟩,
         ⟨"sage", "Sage", "researcher", AgentStatus.thinking⟩]).skipped ∧
    "jin" ∉ (safeReconcileOnStartup
        [⟨"jin", "Jin", "dev", AgentStatus.stopped⟩,
         ⟨"sage", "Sage", "researcher", AgentStatus.thinking⟩]).reset ∧
    "sage" ∈ (safeReconcileOnStartup
        [⟨"jin", "Jin", "dev", AgentStatus.stopped⟩,
         ⟨"sage", "Sage", "researcher", AgentStatus.thinking⟩]).reset ∧
    ("sage", AgentStatus.idle) ∈ (safeReconcileOnStartup
        [⟨"jin", "Jin", "dev", AgentStatus.stopped⟩,
         ⟨"sage", "Sage", "researcher", AgentStatus.thinking⟩]).updates := by
  have h := reconcile_stopped_sticky
    [⟨"jin", "Jin", "dev", AgentStatus.stopped⟩,
     ⟨"sage", "Sage", "researcher", AgentStatus.thinking⟩] (by decide)
  have hjin := h ⟨"jin", "Jin", "dev", AgentStatus.stopped⟩ (by simp)
  have hsage := h ⟨"sage", "Sage", "researcher", AgentStatus.thinking⟩ (by simp)
  exact ⟨(hjin.1 rfl).1, (hjin.1 rfl).2.1, (hsage.2 (Or.inl rfl)).1, (hsage.2 (Or.inl rfl)).2⟩

/-- C8: guardedStartAgent delegates to the underlying start operation exactly
once with the unchanged agent id iff the agent exists and is not stopped; a
missing agent fails immediately with the not-found error; a stopped agent
fails with an error whose message contains the agent id, the agent name, and
the manual-restart policy sentence. -/
theorem guardedStart_policy (getAgent : String → Option AgentLight) (agentId : String) :
    (guardedStartAgent getAgent agentId = GuardedStartOutcome.startedWith [agentId]
      ↔ ∃ a, getAgent agentId = some a ∧ a.status ≠ AgentStatus.stopped) ∧
    (getAgent agentId = none →
      guardedStartAgent getAgent agentId
        = GuardedStartOutcome.failed (guardedStartNotFoundMsg agentId)) ∧
    (∀ a, getAgent agentId = some a → a.status = AgentStatus.stopped →
      guardedStartAgent getAgent agentId
          = GuardedStartOutcome.failed (guardedStartRefuseMsg a.name agentId) ∧
        strContainsSub (guardedStartRefuseMsg a.name agentId) agentId ∧
        strContainsSub (guardedStartRefuseMsg a.name agentId) a.name ∧
        strContainsSub (guardedStartRefuseMsg a.name agentId)
          "Stopped agents must be manually restarted") := by
  refine ⟨?_, ?_, ?_⟩
  · constructor
    · intro h
      cases hg : getAgent agentId with
      | none => simp only [guardedStartAgent, hg] at h; exact absurd h (by simp)
      | some a =>
        refine ⟨a, rfl, ?_⟩
        intro hstop
        simp only [guardedStartAgent, hg, if_pos hstop] at h
        exact absurd h (by simp)
    · rintro ⟨a, hg, hne⟩
      simp only [guardedStartAgent, hg, if_neg hne]
  · intro hg
    simp only [guardedStartAgent, hg]
  · intro a hg hstop
    refine ⟨by simp only [guardedStartAgent, hg, if_pos hstop], ?_, ?_, ?_⟩
    · refine ⟨"guardedStartAgent: refusing to start stopped agent " ++ a.name ++ "(",
        "). Stopped agents must be manually restarted. This prevents watchdog from " ++
          "auto-recovering deliberately retired agents (e.g. VzKdJ89cpXOcS7EiC_n99).", ?_⟩
      rw [guardedStartRefuseMsg]
      simp only [String.append_assoc]
      rfl
    · refine ⟨"guardedStartAgent: refusing to start stopped agent ",
        "(" ++ agentId ++ "). Stopped agents must be manually restarted. " ++
          "This prevents watchdog from auto-recovering deliberately retired agents " ++
          "(e.g. VzKdJ89cpXOcS7EiC_n99).", ?_⟩
      rw [guardedStartRefuseMsg]
      simp only [String.append_assoc]
      rfl
    · refine ⟨"guardedStartAgent: refusing to start stopped agent " ++ a.name ++ "(" ++
          agentId ++ "). ",
        ". This prevents watchdog from auto-recovering deliberately retired agents " ++
          "(e.g. VzKdJ89cpXOcS7EiC_n99).", ?_⟩
      rw [guardedStartRefuseMsg]
      simp only [String.append_assoc]
      rfl

/-- Witness for C8 at concrete directories: a stopped agent is refused with
the policy message, a missing agent fails with the not-found message, an idle
agent is started exactly once. -/
theorem guardedStart_policy_witness :
    guardedStartAgent (fun _ => some ⟨"scout", "Scout", "scout", AgentStatus.stopped⟩) "scout"
        = GuardedStartOutcome.failed (guardedStartRefuseMsg "Scout" "scout") ∧
      strContainsSub (guardedStartRefuseMsg "Scout" "scout") "scout" ∧
    guardedStartAgent (fun _ => none) "ghost"
        = GuardedStartOutcome.failed (guardedStartNotFoundMsg "ghost") ∧
    guardedStartAgent (fun _ => some ⟨"dev", "Dev", "developer", AgentStatus.idle⟩) "dev"
        = GuardedStartOutcome.startedWith ["dev"] := by
  refine ⟨?_, ?_, ?_, ?_⟩
  · exact ((guardedStart_policy (fun _ => some ⟨"scout", "Scout", "scout", AgentStatus.stopped⟩)
      "scout").2.2 ⟨"scout", "Scout", "scout", AgentStatus.stopped⟩ rfl rfl).1
  · exact ((guardedStart_policy (fun _ => some ⟨"scout", "Scout", "scout", AgentStatus.stopped⟩)
      "scout").2.2 ⟨"scout", "Scout", "scout", AgentStatus.stopped⟩ rfl rfl).2.1
  · exact (guardedStart_policy (fun _ => none) "ghost").2.1 rfl
  · exact (guardedStart_policy (fun _ => some ⟨"dev", "Dev", "developer", AgentStatus.idle⟩)
      "dev").1.mpr ⟨⟨"dev", "Dev", "developer", AgentStatus.idle⟩, rfl, by decide⟩

/-! ## Map and eviction lemmas -/

/-- Absence from the map is absence of the key among the entries. -/
theorem mapGet_eq_none_iff (c : List (String × Nat)) (k : String) :
    mapGet c k = none ↔ ∀ e ∈ c, e.1 ≠ k := by
  unfold mapGet
  cases h : c.find? (fun e => e.1 = k) with
  | some e =>
    constructor
    · intro hc; exact absurd hc (by simp)
    · intro hall
      have hp := List.find?_some h
      have hmem := List.mem_of_find?_eq_some h
      simp at hp
      exact absurd hp (hall e hmem)
  | none =>
    constructor
    · intro _ e he
      have := List.find?_eq_none.mp h e he
      simpa using this
    · intro _; rfl

/-- Reading back the key just set. -/
theorem mapGet_mapSet_self (c : List (String × Nat)) (k : String) (v : Nat) :
    mapGet (mapSet c k v) k = some v := by
  induction c with
  | nil =>
    unfold mapSet mapGet
    rw [List.find?_cons_of_pos _ (by simp)]
  | cons e rest ih =>
    rw [mapSet]
    by_cases he : e.1 = k
    · rw [if_pos he]
      unfold mapGet
      rw [List.find?_cons_of_pos _ (by simp)]
    · rw [if_neg he]
      rw [mapGet] at ih ⊢
      rw [List.find?_cons_of_neg _ (by simpa using he)]
      exact ih

/-- Setting one key leaves the other keys unchanged. -/
theorem mapGet_mapSet_ne (c : List (String × Nat)) (k k2 : String) (v : Nat)
    (hne : k2 ≠ k) : mapGet (mapSet c k v) k2 = mapGet c k2 := by
  induction c with
  | nil =>
    unfold mapSet mapGet
    rw [List.find?_cons_of_neg _ (by simpa using hne.symm)]
  | cons e rest ih =>
    rw [mapSet]
    by_cases he : e.1 = k
    · rw [if_pos he]
      unfold mapGet
      rw [List.find?_cons_of_neg _ (by simpa using hne.symm),
        List.find?_cons_of_neg _ (by simpa [he] using hne.symm)]
    · rw [if_neg he]
      unfold mapGet at ih ⊢
      by_cases he2 : e.1 = k2
      · rw [List.find?_cons_of_pos _ (by simpa using he2),
          List.find?_cons_of_pos _ (by simpa using he2)]
      · rw [List.find?_cons_of_neg _ (by simpa using he2),
          List.find?_cons_of_neg _ (by simpa using he2)]
        exact ih

/-- Setting an absent key grows the map by exactly one entry. -/
theorem mapSet_length_of_absent (c : List (String × Nat)) (k : String) (v : Nat)
    (h : mapGet c k = none) : (mapSet c k v).length = c.length + 1 := by
  induction c with
  | nil => simp [mapSet]
  | cons e rest ih =>
    rw [mapGet_eq_none_iff] at h
    have he : e.1 ≠ k := h e (List.mem_cons_self e rest)
    rw [mapSet, if_neg he]
    have hrest : mapGet rest k = none := by
      rw [mapGet_eq_none_iff]
      exact fun x hx => h x (List.mem_cons_of_mem e hx)
    simp [ih hrest]

/-- Map.set grows the map by at most one entry. -/
theorem mapSet_length_le (c : List (String × Nat)) (k : String) (v : Nat) :
    (mapSet c k v).length ≤ c.length + 1 := by
  induction c with
  | nil => simp [mapSet]
  | cons e rest ih =>
    rw [mapSet]
    by_cases he : e.1 = k
    · rw [if_pos he]; simp
    · rw [if_neg he]; simpa using ih

/-- The while loop only deletes entries. -/
theorem evictOverCapacity_sublist (l : List (String × Nat)) :
    List.Sublist (evictOverCapacity l) l := by
  induction l with
  | nil => simp [evictOverCapacity]
  | cons e rest ih =>
    rw [evictOverCapacity]
    by_cases h : (e :: rest).length > ROUTING_DEDUP_MAX_KEYS
    · rw [if_pos h]
      exact ih.trans (List.sublist_cons_self e rest)
    · rw [if_neg h]

/-- The while loop ends with at most ROUTING_DEDUP_MAX_KEYS entries. -/
theorem evictOverCapacity_length_le (l : List (String × Nat)) :
    (evictOverCapacity l).length ≤ ROUTING_DEDUP_MAX_KEYS := by
  induction l with
  | nil => simp [evictOverCapacity, ROUTING_DEDUP_MAX_KEYS]
  | cons e rest ih =>
    rw [evictOverCapacity]
    by_cases h : (e :: rest).length > ROUTING_DEDUP_MAX_KEYS
    · rw [if_pos h]; exact ih
    · rw [if_neg h]; omega

/-- evictExpired only deletes entries. -/
theorem evictExpired_sublist (now : Nat) (c : List (String × Nat)) :
    List.Sublist (evictExpired now c) c :=
  (evictOverCapacity_sublist _).trans (List.filter_sublist c)

/-- A key absent before eviction is absent after it. -/
theorem mapGet_evictExpired_none (now : Nat) (c : List (String × Nat)) (k : String)
    (h : mapGet c k = none) : mapGet (evictExpired now c) k = none := by
  rw [mapGet_eq_none_iff] at h ⊢
  intro e he
  exact h e ((evictExpired_sublist now c).subset he)

/-! ## checkAndRecordDedup path lemmas -/

/-- With the DB up and a conflicting row present, every path of
checkAndRecordDedup reports a duplicate and preserves the row and the DB
state: an L1 hit reports a duplicate directly, and both DB paths hit the
ON CONFLICT row. -/
theorem checkAndRecord_dup_of_conflict
    (now : Nat) (f t : String) (m : DedupMeta) (ttl : Nat) (freshId : String)
    (st : DedupState)
    (hdb : st.dbUp = true)
    (hconf : rowConflicts st.table f t m.eventHash = true) :
    (checkAndRecordDedup now f t m ttl freshId st).1.isDuplicate = true ∧
    (checkAndRecordDedup now f t m ttl freshId st).2.dbUp = true ∧
    rowConflicts (checkAndRecordDedup now f t m ttl freshId st).2.table f t
      m.eventHash = true := by
  rw [checkAndRecordDedup]
  cases hget : mapGet (evictExpired now st.cache) (buildDedupKey f t m) with
  | some seenAt =>
    by_cases hle : now - seenAt ≤ ttl
    · simp [hle, hdb, hconf]
    · simp [hle, checkAndRecordDedup.checkAndRecordDb, hdb, hconf]
  | none => simp [checkAndRecordDedup.checkAndRecordDb, hdb, hconf]

/-- With the DB up, no conflicting row, and the key absent from L1, the call
reports a non-duplicate, inserts the row (so the triple conflicts afterwards)
and warms L1 with the current time. -/
theorem checkAndRecord_fresh_insert
    (now : Nat) (f t : String) (m : DedupMeta) (ttl : Nat) (freshId : String)
    (st : DedupState)
    (hdb : st.dbUp = true)
    (hconf : rowConflicts st.table f t m.eventHash = false)
    (hcache : mapGet st.cache (buildDedupKey f t m) = none) :
    (checkAndRecordDedup now f t m ttl freshId st).1 = ⟨false, none⟩ ∧
    (checkAndRecordDedup now f t m ttl freshId st).2.dbUp = true ∧
    rowConflicts (checkAndRecordDedup now f t m ttl freshId st).2.table f t
      m.eventHash = true ∧
    mapGet (checkAndRecordDedup now f t m ttl freshId st).2.cache
      (buildDedupKey f t m) = some now := by
  have hget := mapGet_evictExpired_none now st.cache _ hcache
  have hstep : checkAndRecordDedup now f t m ttl freshId st =
      (⟨false, none⟩,
        ⟨mapSet (evictExpired now st.cache) (buildDedupKey f t m) now,
         st.table ++ [⟨freshId, f, t, m.eventHash, m.taskId, m.seq, now, now + ttl⟩],
         st.dbUp⟩) := by
    rw [checkAndRecordDedup, hget]
    simp [checkAndRecordDedup.checkAndRecordDb, hdb, hconf]
  rw [hstep]
  refine ⟨rfl, hdb, ?_, mapGet_mapSet_self _ _ _⟩
  simp [rowConflicts]

/-! ## Claim theorems for the dedup store -/

/-- C1 (code bug): a fingerprint whose only durable record is expired
(seenAt = 0, expiresAt = seenAt + TTL, checked at TTL + 60000 ms) and that is
absent from the fast tier is still reported as a duplicate by
checkAndRecordDedup — the unique index has no expiry predicate, so the
expired row still conflicts and no new record is created (the table is
unchanged), contradicting the TTL-boundary behaviour the spec states and the
function's own doc comment ("already seen within the TTL window"). The last
conjunct checks the in-window half of the claim at 71h59m, which does hold. -/
theorem checkAndRecord_expired_unpruned_duplicate :
    ROUTING_DEDUP_TTL_MS + 60000 = 259260000 ∧
    (checkAndRecordDedup 259260000 "agentA" "agentB" ⟨none, "h1", none⟩
        ROUTING_DEDUP_TTL_MS "idNew"
        ⟨[], [⟨"id0", "agentA", "agentB", "h1", none, none, 0, ROUTING_DEDUP_TTL_MS⟩],
          true⟩).1 =
      ⟨true, some "DB conflict — already seen in persistent store"⟩ ∧
    (checkAndRecordDedup 259260000 "agentA" "agentB" ⟨none, "h1", none⟩
        ROUTING_DEDUP_TTL_MS "idNew"
        ⟨[], [⟨"id0", "agentA", "agentB", "h1", none, none, 0, ROUTING_DEDUP_TTL_MS⟩],
          true⟩).2.table =
      [⟨"id0", "agentA", "agentB", "h1", none, none, 0, ROUTING_DEDUP_TTL_MS⟩] ∧
    (checkAndRecordDedup 259140000 "agentA" "agentB" ⟨none, "h1", none⟩
        ROUTING_DEDUP_TTL_MS "idNew2"
        ⟨[], [⟨"id0", "agentA", "agentB", "h1", none, none, 0, ROUTING_DEDUP_TTL_MS⟩],
          true⟩).1.isDuplicate = true := by
  decide

/-- C2 counterexample: at a concrete conflicting call (existing record with
seenAt = 1000, call at nowMs = 5000) the fast-tier entry written is the
current time 5000, not the existing record's seenAt 1000 — the claim that the
existing record's seenAt is inserted fails on the code. -/
theorem checkAndRecord_conflict_warm_counterexample :
    (checkAndRecordDedup 5000 "agentA" "agentB" ⟨none, "h1", none⟩
        ROUTING_DEDUP_TTL_MS "idNew"
        ⟨[], [⟨"id0", "agentA", "agentB", "h1", none, none, 1000,
          1000 + ROUTING_DEDUP_TTL_MS⟩], true⟩).1 =
      ⟨true, some "DB conflict — already seen in persistent store"⟩ ∧
    mapGet (checkAndRecordDedup 5000 "agentA" "agentB" ⟨none, "h1", none⟩
        ROUTING_DEDUP_TTL_MS "idNew"
        ⟨[], [⟨"id0", "agentA", "agentB", "h1", none, none, 1000,
          1000 + ROUTING_DEDUP_TTL_MS⟩], true⟩).2.cache
      (buildDedupKey "agentA" "agentB" ⟨none, "h1", none⟩) = some 5000 ∧
    (5000 : Nat) ≠ 1000 := by
  decide

/-- C2 (amended): when the durable insert is rejected because a row with the
same identity already exists, checkAndRecordDedup returns duplicate with the
durable-conflict reason and warms the fast tier with the current time (not
the existing record's seenAt, which the code never reads). -/
theorem checkAndRecord_conflict_path
    (now : Nat) (f t : String) (m : DedupMeta) (ttl : Nat) (freshId : String)
    (st : DedupState)
    (hdb : st.dbUp = true)
    (hconf : rowConflicts st.table f t m.eventHash = true)
    (hcache : mapGet st.cache (buildDedupKey f t m) = none) :
    (checkAndRecordDedup now f t m ttl freshId st).1 =
      ⟨true, some "DB conflict — already seen in persistent store"⟩ ∧
    mapGet (checkAndRecordDedup now f t m ttl freshId st).2.cache
      (buildDedupKey f t m) = some now := by
  have hget := mapGet_evictExpired_none now st.cache _ hcache
  have hstep : checkAndRecordDedup now f t m ttl freshId st =
      (⟨true, some "DB conflict — already seen in persistent store"⟩,
        ⟨mapSet (evictExpired now st.cache) (buildDedupKey f t m) now,
         st.table, st.dbUp⟩) := by
    rw [checkAndRecordDedup, hget]
    simp [checkAndRecordDedup.checkAndRecordDb, hdb, hconf]
  rw [hstep]
  exact ⟨rfl, mapGet_mapSet_self _ _ _⟩

/-- Witness for the amended C2 at a concrete conflicting state. -/
theorem checkAndRecord_conflict_path_witness :
    (checkAndRecordDedup 5000 "agentC" "agentD" ⟨none, "h2", none⟩
        ROUTING_DEDUP_TTL_MS "idNew"
        ⟨[], [⟨"id0", "agentC", "agentD", "h2", none, none, 1000,
          1000 + ROUTING_DEDUP_TTL_MS⟩], true⟩).1 =
      ⟨true, some "DB conflict — already seen in persistent store"⟩ ∧
    mapGet (checkAndRecordDedup 5000 "agentC" "agentD" ⟨none, "h2", none⟩
        ROUTING_DEDUP_TTL_MS "idNew"
        ⟨[], [⟨"id0", "agentC", "agentD", "h2", none, none, 1000,
          1000 + ROUTING_DEDUP_TTL_MS⟩], true⟩).2.cache
      (buildDedupKey "agentC" "agentD" ⟨none, "h2", none⟩) = some 5000 :=
  checkAndRecord_conflict_path 5000 "agentC" "agentD" ⟨none, "h2", none⟩
    ROUTING_DEDUP_TTL_MS "idNew"
    ⟨[], [⟨"id0", "agentC", "agentD", "h2", none, none, 1000,
      1000 + ROUTING_DEDUP_TTL_MS⟩], true⟩ rfl (by decide) rfl

/-- Any run of same-input calls preserves the DB-up flag and the conflicting
row. -/
theorem runSameCalls_preserves
    (f t : String) (m : DedupMeta) (ttl : Nat) (calls : List (Nat × String))
    (st : DedupState)
    (hdb : st.dbUp = true)
    (hconf : rowConflicts st.table f t m.eventHash = true) :
    (runSameCalls f t m ttl calls st).dbUp = true ∧
    rowConflicts (runSameCalls f t m ttl calls st).table f t m.eventHash = true := by
  induction calls generalizing st with
  | nil => exact ⟨hdb, hconf⟩
  | cons c rest ih =>
    have h := checkAndRecord_dup_of_conflict c.1 f t m ttl c.2 st hdb hconf
    exact ih _ h.2.1 h.2.2

/-- C3: from a state with no fast-tier entry and no durable record for the
fingerprint (DB up), the first checkAndRecordDedup call returns non-duplicate
and every subsequent call with the same inputs within the TTL window returns
duplicate. -/
theorem checkAndRecord_idempotent
    (st0 : DedupState) (f t : String) (m : DedupMeta) (ttl now0 : Nat) (id0 : String)
    (calls : List (Nat × String))
    (hdb : st0.dbUp = true)
    (hcache : mapGet st0.cache (buildDedupKey f t m) = none)
    (hconf : rowConflicts st0.table f t m.eventHash = false)
    (_hwin : ∀ c ∈ calls, now0 ≤ c.1 ∧ c.1 - now0 ≤ ttl) :
    (checkAndRecordDedup now0 f t m ttl id0 st0).1.isDuplicate = false ∧
    ∀ pre c post, calls = pre ++ c :: post →
      (checkAndRecordDedup c.1 f t m ttl c.2
        (runSameCalls f t m ttl pre
          (checkAndRecordDedup now0 f t m ttl id0 st0).2)).1.isDuplicate = true := by
  have hfresh := checkAndRecord_fresh_insert now0 f t m ttl id0 st0 hdb hconf hcache
  refine ⟨by rw [hfresh.1], ?_⟩
  intro pre c post _
  have hrun := runSameCalls_preserves f t m ttl pre _ hfresh.2.1 hfresh.2.2.1
  exact (checkAndRecord_dup_of_conflict c.1 f t m ttl c.2 _ hrun.1 hrun.2).1

/-- Witness for C3: first call at t=0 is a non-duplicate, the second call a
minute later is a duplicate. -/
theorem checkAndRecord_idempotent_witness :
    (checkAndRecordDedup 0 "agentA" "agentB" ⟨none, "h1", none⟩ ROUTING_DEDUP_TTL_MS
      "i0" ⟨[], [], true⟩).1.isDuplicate = false ∧
    (checkAndRecordDedup 60000 "agentA" "agentB" ⟨none, "h1", none⟩ ROUTING_DEDUP_TTL_MS
      "i1" (runSameCalls "agentA" "agentB" ⟨none, "h1", none⟩ ROUTING_DEDUP_TTL_MS []
        (checkAndRecordDedup 0 "agentA" "agentB" ⟨none, "h1", none⟩ ROUTING_DEDUP_TTL_MS
          "i0" ⟨[], [], true⟩).2)).1.isDuplicate = true := by
  have h := checkAndRecord_idempotent ⟨[], [], true⟩ "agentA" "agentB" ⟨none, "h1", none⟩
    ROUTING_DEDUP_TTL_MS 0 "i0" [(60000, "i1")] rfl rfl rfl (by decide)
  exact ⟨h.1, h.2 [] (60000, "i1") [] rfl⟩

/-- C4: after a non-duplicate record, discarding the fast tier entirely and
re-running checkAndRecordDedup with the same inputs within the TTL window
still returns duplicate — the durable row alone decides. -/
theorem checkAndRecord_restart_safety
    (st0 : DedupState) (f t : String) (m : DedupMeta) (ttl now0 now1 : Nat)
    (id0 id1 : String)
    (hdb : st0.dbUp = true)
    (hcache : mapGet st0.cache (buildDedupKey f t m) = none)
    (hconf : rowConflicts st0.table f t m.eventHash = false)
    (_hwin : now0 ≤ now1 ∧ now1 - now0 ≤ ttl) :
    (checkAndRecordDedup now0 f t m ttl id0 st0).1.isDuplicate = false ∧
    (checkAndRecordDedup now1 f t m ttl id1
      ⟨[], (checkAndRecordDedup now0 f t m ttl id0 st0).2.table,
        (checkAndRecordDedup now0 f t m ttl id0 st0).2.dbUp⟩).1.isDuplicate = true := by
  have hfresh := checkAndRecord_fresh_insert now0 f t m ttl id0 st0 hdb hconf hcache
  refine ⟨by rw [hfresh.1], ?_⟩
  exact (checkAndRecord_dup_of_conflict now1 f t m ttl id1
    ⟨[], _, _⟩ hfresh.2.1 hfresh.2.2.1).1

/-- Witness for C4 at concrete inputs (record at t=0, fast tier wiped,
recheck two minutes later). -/
theorem checkAndRecord_restart_safety_witness :
    (checkAndRecordDedup 0 "agentA" "agentB" ⟨some "t1", "h1", none⟩ ROUTING_DEDUP_TTL_MS
      "i0" ⟨[], [], true⟩).1.isDuplicate = false ∧
    (checkAndRecordDedup 120000 "agentA" "agentB" ⟨some "t1", "h1", none⟩ ROUTING_DEDUP_TTL_MS
      "i1" ⟨[], (checkAndRecordDedup 0 "agentA" "agentB" ⟨some "t1", "h1", none⟩
          ROUTING_DEDUP_TTL_MS "i0" ⟨[], [], true⟩).2.table,
        (checkAndRecordDedup 0 "agentA" "agentB" ⟨some "t1", "h1", none⟩
          ROUTING_DEDUP_TTL_MS "i0" ⟨[], [], true⟩).2.dbUp⟩).1.isDuplicate = true :=
  checkAndRecord_restart_safety ⟨[], [], true⟩ "agentA" "agentB" ⟨some "t1", "h1", none⟩
    ROUTING_DEDUP_TTL_MS 0 120000 "i0" "i1" rfl rfl rfl (by decide)

/-- C5: with the durable store erroring (dbUp = false) and the fingerprint
absent from the fast tier, checkAndRecordDedup returns isDuplicate = false
with no reason, warms the fast tier with the current time, and returns
normally (the catch handler swallows the error, so nothing is raised). -/
theorem checkAndRecord_fail_open
    (now : Nat) (f t : String) (m : DedupMeta) (ttl : Nat) (freshId : String)
    (st : DedupState)
    (hdb : st.dbUp = false)
    (hcache : mapGet st.cache (buildDedupKey f t m) = none) :
    (checkAndRecordDedup now f t m ttl freshId st).1 = ⟨false, none⟩ ∧
    mapGet (checkAndRecordDedup now f t m ttl freshId st).2.cache
      (buildDedupKey f t m) = some now := by
  have hget := mapGet_evictExpired_none now st.cache _ hcache
  have hstep : checkAndRecordDedup now f t m ttl freshId st =
      (⟨false, none⟩,
        ⟨mapSet (evictExpired now st.cache) (buildDedupKey f t m) now,
         st.table, st.dbUp⟩) := by
    rw [checkAndRecordDedup, hget]
    simp [checkAndRecordDedup.checkAndRecordDb, hdb]
  rw [hstep]
  exact ⟨rfl, mapGet_mapSet_self _ _ _⟩

/-- Witness for C5 at a concrete erroring store. -/
theorem checkAndRecord_fail_open_witness :
    (checkAndRecordDedup 1000 "agentA" "agentB" ⟨none, "h9", some "3"⟩ ROUTING_DEDUP_TTL_MS
      "i0" ⟨[], [], false⟩).1 = ⟨false, none⟩ ∧
    mapGet (checkAndRecordDedup 1000 "agentA" "agentB" ⟨none, "h9", some "3"⟩
        ROUTING_DEDUP_TTL_MS "i0" ⟨[], [], false⟩).2.cache
      (buildDedupKey "agentA" "agentB" ⟨none, "h9", some "3"⟩) = some 1000 :=
  checkAndRecord_fail_open 1000 "agentA" "agentB" ⟨none, "h9", some "3"⟩
    ROUTING_DEDUP_TTL_MS "i0" ⟨[], [], false⟩ rfl rfl

/-- C10: two racing checkAndRecordDedup calls with identical inputs and no
prior record. Each caller's fast-tier lookup precedes the durable phase and
reads only its own (process-local) cache, so the race is decided solely by the
order in which the durable store serializes the two atomic conditional
inserts; the model runs the two durable phases in that order against the
shared table. Whichever insert is serialized first returns non-duplicate; the
other call conflicts and returns duplicate — never two non-duplicates. The
statement is symmetric in the two callers (all inputs universally
quantified), so it covers both serialization orders. -/
theorem checkAndRecord_race_single_winner
    (table : List DedupRow) (c1 c2 : List (String × Nat)) (f t : String) (m : DedupMeta)
    (ttl now1 now2 : Nat) (id1 id2 : String)
    (hconf : rowConflicts table f t m.eventHash = false)
    (hc1 : mapGet c1 (buildDedupKey f t m) = none)
    (_hc2 : mapGet c2 (buildDedupKey f t m) = none) :
    (checkAndRecordDedup now1 f t m ttl id1 ⟨c1, table, true⟩).1.isDuplicate = false ∧
    (checkAndRecordDedup now2 f t m ttl id2
      ⟨c2, (checkAndRecordDedup now1 f t m ttl id1 ⟨c1, table, true⟩).2.table,
        true⟩).1.isDuplicate = true := by
  have hfresh := checkAndRecord_fresh_insert now1 f t m ttl id1 ⟨c1, table, true⟩
    rfl hconf hc1
  refine ⟨by rw [hfresh.1], ?_⟩
  exact (checkAndRecord_dup_of_conflict now2 f t m ttl id2 ⟨c2, _, true⟩ rfl
    hfresh.2.2.1).1

/-- Witness for C10: both callers start cold at the same instant; the
serialized-first caller wins, the other observes the conflict. -/
theorem checkAndRecord_race_single_winner_witness :
    (checkAndRecordDedup 500 "agentA" "agentB" ⟨none, "h1", none⟩ ROUTING_DEDUP_TTL_MS
      "i1" ⟨[], [], true⟩).1.isDuplicate = false ∧
    (checkAndRecordDedup 500 "agentA" "agentB" ⟨none, "h1", none⟩ ROUTING_DEDUP_TTL_MS
      "i2" ⟨[], (checkAndRecordDedup 500 "agentA" "agentB" ⟨none, "h1", none⟩
          ROUTING_DEDUP_TTL_MS "i1" ⟨[], [], true⟩).2.table,
        true⟩).1.isDuplicate = true :=
  checkAndRecord_race_single_winner [] [] [] "agentA" "agentB" ⟨none, "h1", none⟩
    ROUTING_DEDUP_TTL_MS 500 500 "i1" "i2" rfl rfl rfl

/-! ## Fast-tier capacity: lemmas, amended bound, counterexample (C9) -/

/-- Resulting fast tier of a checkAndRecordDedup call: either the evicted
cache unchanged (L1 hit) or the evicted cache with the key set (all other
paths). -/
theorem checkAndRecord_cache_shape
    (now : Nat) (f t : String) (m : DedupMeta) (ttl : Nat) (freshId : String)
    (st : DedupState) :
    (checkAndRecordDedup now f t m ttl freshId st).2.cache = evictExpired now st.cache ∨
    (checkAndRecordDedup now f t m ttl freshId st).2.cache =
      mapSet (evictExpired now st.cache) (buildDedupKey f t m) now := by
  rw [checkAndRecordDedup]
  cases hget : mapGet (evictExpired now st.cache) (buildDedupKey f t m) with
  | some seenAt =>
    by_cases hle : now - seenAt ≤ ttl
    · left; simp [hle]
    · by_cases hdb : st.dbUp
      · by_cases hc : rowConflicts st.table f t m.eventHash
        · right; simp [hle, checkAndRecordDedup.checkAndRecordDb, hdb, hc]
        · right; simp [hle, checkAndRecordDedup.checkAndRecordDb, hdb, hc]
      · right; simp [hle, checkAndRecordDedup.checkAndRecordDb, hdb]
  | none =>
    by_cases hdb : st.dbUp
    · by_cases hc : rowConflicts st.table f t m.eventHash
      · right; simp [checkAndRecordDedup.checkAndRecordDb, hdb, hc]
      · right; simp [checkAndRecordDedup.checkAndRecordDb, hdb, hc]
    · right; simp [checkAndRecordDedup.checkAndRecordDb, hdb]

/-- C9 (amended): the fast tier is swept and capacity-evicted only at the
start of checkAndRecordDedup. Right after that sweep the size is at most
10,000 and every surviving entry is within the 72-hour constant; a completed
checkAndRecordDedup leaves at most 10,001 entries, because the call inserts
its own key only after evicting. The 10,000 bound claimed after every public
operation does not hold for rehydration (see the counterexample) or prune
(which never touches the fast tier). -/
theorem fast_tier_eviction_bounds
    (now : Nat) (cache : List (String × Nat)) (f t : String) (m : DedupMeta)
    (ttl : Nat) (freshId : String) (st : DedupState) :
    (evictExpired now cache).length ≤ ROUTING_DEDUP_MAX_KEYS ∧
    (∀ e ∈ evictExpired now cache, now - e.2 ≤ ROUTING_DEDUP_TTL_MS) ∧
    (checkAndRecordDedup now f t m ttl freshId st).2.cache.length ≤
      ROUTING_DEDUP_MAX_KEYS + 1 := by
  refine ⟨evictOverCapacity_length_le _, ?_, ?_⟩
  · intro e he
    have hmem := (evictOverCapacity_sublist _).subset he
    have := List.of_mem_filter hmem
    simpa using this
  · rcases checkAndRecord_cache_shape now f t m ttl freshId st with h | h
    · rw [h]
      exact Nat.le_succ_of_le (evictOverCapacity_length_le _)
    · rw [h]
      exact (mapSet_length_le _ _ _).trans
        (Nat.add_le_add_right (evictOverCapacity_length_le _) 1)

/-- Inserting rows with pairwise-distinct keys, all absent from the cache,
grows the cache by exactly one entry per row. -/
theorem foldl_mapSet_length_of_nodup {β : Type} (key : β → String) (val : β → Nat)
    (rows : List β) (cache : List (String × Nat))
    (hnd : (rows.map key).Nodup)
    (habs : ∀ r ∈ rows, mapGet cache (key r) = none) :
    (rows.foldl (fun c r => mapSet c (key r) (val r)) cache).length =
      cache.length + rows.length := by
  induction rows generalizing cache with
  | nil => simp
  | cons r rest ih =>
    simp only [List.foldl_cons, List.length_cons]
    have hr := habs r (List.mem_cons_self r rest)
    have hnd2 : (rest.map key).Nodup := (List.nodup_cons.mp (by simpa using hnd)).2
    have hhead : key r ∉ rest.map key := (List.nodup_cons.mp (by simpa using hnd)).1
    have habs2 : ∀ x ∈ rest, mapGet (mapSet cache (key r) (val r)) (key x) = none := by
      intro x hx
      have hne : key x ≠ key r := by
        intro heq
        exact hhead (heq ▸ List.mem_map_of_mem key hx)
      rw [mapGet_mapSet_ne _ _ _ _ hne]
      exact habs x (List.mem_cons_of_mem r hx)
    rw [ih _ hnd2 habs2, mapSet_length_of_absent _ _ _ hr]
    omega

/-- Size of the fast tier after a rehydration that keeps every row and stays
under the 20,000-row SQL LIMIT, starting from an empty cache with the DB up:
one entry per durable row, with no eviction of any kind. -/
theorem loadStartup_cache_length (nowMs windowMs : Nat) (table : List DedupRow)
    (hkeep : ∀ r ∈ table, r.expiresAt > nowMs ∧ r.seenAt > nowMs - windowMs)
    (hlen : table.length ≤ 20000)
    (hnd : (table.map (fun r => buildDedupKey r.fromAgentId r.toAgentId
      ⟨truthyOpt r.taskId, r.contentHash, truthyOpt r.seq⟩)).Nodup) :
    (loadStartupDedupGuard nowMs windowMs ⟨[], table, true⟩).cache.length =
      table.length := by
  show ((((table.filter (fun r =>
      r.expiresAt > nowMs ∧ r.seenAt > nowMs - windowMs)).insertionSort
        (fun r s => r.seenAt ≥ s.seenAt)).take 20000).foldl
      (fun c r => mapSet c (buildDedupKey r.fromAgentId r.toAgentId
        ⟨truthyOpt r.taskId, r.contentHash, truthyOpt r.seq⟩) r.seenAt) []).length =
    table.length
  have hfilter : table.filter (fun r =>
      r.expiresAt > nowMs ∧ r.seenAt > nowMs - windowMs) = table :=
    List.filter_eq_self.mpr (fun r hr => by simpa using hkeep r hr)
  rw [hfilter]
  rw [List.take_of_length_le (by rw [List.length_insertionSort]; exact hlen)]
  obtain ⟨sorted, hs⟩ : ∃ l, table.insertionSort (fun r s => r.seenAt ≥ s.seenAt) = l :=
    ⟨_, rfl⟩
  rw [hs]
  have hperm : List.Perm sorted table := hs ▸ List.perm_insertionSort _ _
  have hnd2 : (sorted.map (fun r => buildDedupKey r.fromAgentId r.toAgentId
      ⟨truthyOpt r.taskId, r.contentHash, truthyOpt r.seq⟩)).Nodup :=
    (List.Perm.nodup_iff (List.Perm.map _ hperm)).mpr hnd
  have habs : ∀ r ∈ sorted, mapGet [] (buildDedupKey r.fromAgentId r.toAgentId
      ⟨truthyOpt r.taskId, r.contentHash, truthyOpt r.seq⟩) = none := fun _ _ => rfl
  have hmain := @foldl_mapSet_length_of_nodup DedupRow
    (fun r => buildDedupKey r.fromAgentId r.toAgentId
      ⟨truthyOpt r.taskId, r.contentHash, truthyOpt r.seq⟩)
    (fun r => r.seenAt) sorted ([] : List (String × Nat)) hnd2 habs
  exact hmain.trans (by simp [hperm.length_eq])

/-- The dedup keys of the counterexample rows are pairwise distinct: the key
length is strictly monotone in the index. -/
theorem c9_key_inj : Function.Injective (fun i => buildDedupKey (c9Row i).fromAgentId
    (c9Row i).toAgentId ⟨truthyOpt (c9Row i).taskId, (c9Row i).contentHash,
      truthyOpt (c9Row i).seq⟩) := by
  intro i j h
  have hl := congrArg String.length h
  simp only [buildDedupKey, c9Row, truthyOpt, String.length_append, String.length] at hl
  simpa using hl

/-- C9 counterexample: with 10,001 live durable rows (each within the
window), loadStartupDedupGuard — the rehydrate operation — completes with
10,001 entries in the fast tier, exceeding the configured capacity bound
ROUTING_DEDUP_MAX_KEYS = 10,000; no sweep or capacity eviction runs on this
path, refuting the claimed invariant after every public operation. -/
theorem fast_tier_capacity_counterexample :
    ROUTING_DEDUP_MAX_KEYS = 10000 ∧
    (loadStartupDedupGuard 10 10 ⟨[], c9Table, true⟩).cache.length = 10001 := by
  have hlen : c9Table.length = 10001 := by
    rw [c9Table, List.length_map, List.length_range]
  have hkeep : ∀ r ∈ c9Table, r.expiresAt > 10 ∧ r.seenAt > 10 - 10 := by
    intro r hr
    rw [c9Table] at hr
    obtain ⟨i, _, rfl⟩ := List.mem_map.mp hr
    exact ⟨by norm_num [c9Row], by norm_num [c9Row]⟩
  have hnd : (c9Table.map (fun r => buildDedupKey r.fromAgentId r.toAgentId
      ⟨truthyOpt r.taskId, r.contentHash, truthyOpt r.seq⟩)).Nodup := by
    rw [c9Table, List.map_map]
    exact (List.nodup_range 10001).map c9_key_inj
  have h := loadStartup_cache_length 10 10 c9Table hkeep
    (le_trans (le_of_eq hlen) (by norm_num)) hnd
  refine ⟨rfl, ?_⟩
  rw [h]
  exact hlen

/-! ## Whitespace normalization: lemmas and C6 -/

/-- Dropping the head does not change whether a nonempty tail ends in whitespace. -/
theorem endsWs_cons (c : Char) (cs : List Char) (h : cs ≠ []) :
    endsWs (c :: cs) = endsWs cs := by
  unfold endsWs
  rw [List.reverse_cons]
  cases hrev : cs.reverse with
  | nil => exact absurd (by simpa using hrev) h
  | cons x xs => simp [startsWs]

/-- A nonempty all-whitespace list ends in whitespace. -/
theorem endsWs_of_all (l : List Char) (h : ∀ c ∈ l, isJsWs c = true) (hne : l ≠ []) :
    endsWs l = true := by
  unfold endsWs
  cases hrev : l.reverse with
  | nil => exact absurd (by simpa using hrev) hne
  | cons x xs =>
    have hx : x ∈ l := by
      rw [← List.mem_reverse, hrev]
      exact List.mem_cons_self x xs
    simp [startsWs, h x hx]

/-- Every token is nonempty and contains no whitespace. -/
theorem wsTokens_props (l : List Char) :
    ∀ t ∈ wsTokens l, t ≠ [] ∧ ∀ c ∈ t, isJsWs c = false := by
  induction l with
  | nil => intro t ht; simp [wsTokens] at ht
  | cons c cs ih =>
    intro t ht
    rw [wsTokens] at ht
    by_cases hc : isJsWs c
    · rw [if_pos hc] at ht
      exact ih t ht
    · rw [if_neg hc] at ht
      by_cases hs : startsWs cs
      · rw [if_pos hs] at ht
        rcases List.mem_cons.mp ht with h1 | h2
        · subst h1
          exact ⟨by simp, by intro x hx; rcases List.mem_cons.mp hx with h3 | h3
                             · subst h3; simpa using hc
                             · simp at h3⟩
        · exact ih t h2
      · rw [if_neg hs] at ht
        cases htoks : wsTokens cs with
        | nil =>
          rw [htoks] at ht
          simp [consTok] at ht
          subst ht
          refine ⟨by simp, ?_⟩
          intro x hx
          rcases List.mem_cons.mp hx with h3 | h3
          · subst h3; simpa using hc
          · simp at h3
        | cons tok toks =>
          rw [htoks] at ht
          rcases List.mem_cons.mp (by simpa [consTok] using ht) with h1 | h2
          · subst h1
            have htok := ih tok (htoks ▸ List.mem_cons_self tok toks)
            refine ⟨by simp, ?_⟩
            intro x hx
            rcases List.mem_cons.mp hx with h3 | h4
            · subst h3; simpa using hc
            · exact htok.2 x h4
          · exact ih t (htoks ▸ List.mem_cons_of_mem tok h2)

/-- A list with no tokens is all whitespace. -/
theorem wsTokens_eq_nil (l : List Char) (h : wsTokens l = []) :
    ∀ c ∈ l, isJsWs c = true := by
  induction l with
  | nil => simp
  | cons c cs ih =>
    rw [wsTokens] at h
    by_cases hc : isJsWs c
    · rw [if_pos hc] at h
      intro x hx
      rcases List.mem_cons.mp hx with h1 | h2
      · subst h1; simpa using hc
      · exact ih h x h2
    · rw [if_neg hc] at h
      by_cases hs : startsWs cs
      · rw [if_pos hs] at h; simp at h
      · rw [if_neg hs] at h
        cases htoks : wsTokens cs with
        | nil => rw [htoks] at h; simp [consTok] at h
        | cons tok toks => rw [htoks] at h; simp [consTok] at h

/-- Joining after consTok prepends the character to the joined form. -/
theorem joinTokens_consTok (c : Char) (tks : List (List Char)) :
    joinTokens (consTok c tks) = c :: joinTokens tks := by
  cases tks with
  | nil => rfl
  | cons tok toks => simp [consTok, joinTokens]

/-- The join tail of a nonempty token list is a space before the full join. -/
theorem joinRest_eq_cons (t : List Char) (ts : List (List Char)) :
    joinRest (t :: ts) = ' ' :: joinTokens (t :: ts) := by
  simp [joinRest, joinTokens]

/-- consTok never produces an empty token list. -/
theorem consTok_ne_nil (c : Char) (tks : List (List Char)) : consTok c tks ≠ [] := by
  cases tks <;> simp [consTok]

/-- Shape of the collapsed list: an optional leading space (when the input
starts with whitespace), the single-space join of the tokens, and an optional
trailing space (when the input ends with whitespace and has a token). -/
theorem collapse_decomp (l : List Char) :
    collapseWs l =
      (if startsWs l then [' '] else []) ++ joinTokens (wsTokens l) ++
        (if endsWs l = true ∧ wsTokens l ≠ [] then [' '] else []) := by
  induction l with
  | nil => rfl
  | cons c cs ih =>
    rw [collapseWs, wsTokens]
    by_cases hc : isJsWs c
    · rw [if_pos hc, if_pos hc]
      have hlead : startsWs (c :: cs) = true := by simp [startsWs, hc]
      rw [hlead]
      cases cs with
      | nil => simp [collapseWs, wsTokens, joinTokens, endsWs, startsWs]
      | cons d ds =>
        have hends : endsWs (c :: d :: ds) = endsWs (d :: ds) :=
          endsWs_cons c (d :: ds) (by simp)
        by_cases hs : startsWs (d :: ds)
        · rw [if_pos hs, ih]
          simp [hs, hends]
        · rw [if_neg hs, ih]
          simp only [hends]
          simp [(by simpa using hs : startsWs (d :: ds) = false)]
    · rw [if_neg hc, if_neg hc]
      have hlead : startsWs (c :: cs) = false := by simp [startsWs, hc]
      rw [hlead]
      cases cs with
      | nil =>
        simp [collapseWs, wsTokens, joinTokens, joinRest, consTok, endsWs, startsWs,
          List.reverse_cons, hc]
      | cons d ds =>
        have hends : endsWs (c :: d :: ds) = endsWs (d :: ds) :=
          endsWs_cons c (d :: ds) (by simp)
        by_cases hs : startsWs (d :: ds)
        · rw [if_pos hs, ih]
          cases htoks : wsTokens (d :: ds) with
          | nil =>
            have hall := wsTokens_eq_nil (d :: ds) htoks
            have hend2 : endsWs (d :: ds) = true :=
              endsWs_of_all (d :: ds) hall (by simp)
            simp [hs, hends, hend2, htoks, joinTokens, joinRest]
          | cons tok toks =>
            simp [hs, hends, htoks, joinTokens, joinRest]
        · rw [if_neg hs, ih]
          have hlead2 : startsWs (d :: ds) = false := by simpa using hs
          have htoksne : wsTokens (d :: ds) ≠ [] := by
            intro hnil
            have hall := wsTokens_eq_nil (d :: ds) hnil
            have := hall d (List.mem_cons_self d ds)
            simp [startsWs, this] at hlead2
          rw [joinTokens_consTok]
          simp [hlead2, hends, consTok_ne_nil, htoksne]

/-- Appending one more token to the join tail. -/
theorem joinRest_append_singleton (xs : List (List Char)) (y : List Char) :
    joinRest (xs ++ [y]) = joinRest xs ++ ' ' :: y := by
  induction xs with
  | nil => simp [joinRest]
  | cons x xs ih => simp [joinRest, ih]

/-- Reversing a single-space join reverses the token list and each token. -/
theorem reverse_joinTokens (tks : List (List Char)) :
    (joinTokens tks).reverse = joinTokens ((tks.map List.reverse).reverse) := by
  induction tks with
  | nil => rfl
  | cons t ts ih =>
    cases ts with
    | nil => simp [joinTokens, joinRest]
    | cons t2 ts2 =>
      have hstep : joinTokens (t :: t2 :: ts2) = t ++ (' ' :: joinTokens (t2 :: ts2)) := by
        rw [joinTokens, joinRest_eq_cons]
      rw [hstep, List.map_cons, List.reverse_cons]
      obtain ⟨xs, hxs⟩ : ∃ xs, ((t2 :: ts2).map List.reverse).reverse = xs := ⟨_, rfl⟩
      have hne : xs ≠ [] := by rw [← hxs]; simp
      rw [hxs, List.reverse_append, List.reverse_cons, ih, hxs]
      cases xs with
      | nil => exact absurd rfl hne
      | cons z zs =>
        simp [joinTokens, joinRest_append_singleton]

/-- A join of nonempty whitespace-free tokens has no leading whitespace. -/
theorem dropWhile_ws_joinTokens (tks : List (List Char))
    (h : ∀ t ∈ tks, t ≠ [] ∧ ∀ c ∈ t, isJsWs c = false) :
    (joinTokens tks).dropWhile isJsWs = joinTokens tks := by
  cases tks with
  | nil => rfl
  | cons t ts =>
    obtain ⟨hne, hch⟩ := h t (List.mem_cons_self t ts)
    cases t with
    | nil => exact absurd rfl hne
    | cons x t2 =>
      have hx : isJsWs x = false := hch x (List.mem_cons_self x t2)
      simp [joinTokens, List.dropWhile, hx]

/-- Trimming an optionally space-wrapped join returns the bare join. -/
theorem trim_decomp (tks : List (List Char)) (lead trail : List Char)
    (hlead : lead = [] ∨ lead = [' ']) (htrail : trail = [] ∨ trail = [' '])
    (h : ∀ t ∈ tks, t ≠ [] ∧ ∀ c ∈ t, isJsWs c = false) :
    trimWs (lead ++ joinTokens tks ++ trail) = joinTokens tks := by
  cases tks with
  | nil =>
    rcases hlead with h1 | h1 <;> rcases htrail with h2 | h2 <;> subst h1 <;> subst h2 <;>
      decide
  | cons t ts =>
    have hprops2 : ∀ t2 ∈ ((t :: ts).map List.reverse).reverse,
        t2 ≠ [] ∧ ∀ c ∈ t2, isJsWs c = false := by
      intro t2 ht2
      rw [List.mem_reverse] at ht2
      obtain ⟨t0, ht0, rfl⟩ := List.mem_map.mp ht2
      obtain ⟨hne0, hch0⟩ := h t0 ht0
      exact ⟨by simpa using hne0, fun c hc => hch0 c (List.mem_reverse.mp hc)⟩
    obtain ⟨x, M2, hMeq, hx⟩ : ∃ x M2, joinTokens (t :: ts) = x :: M2 ∧
        isJsWs x = false := by
      obtain ⟨hne, hch⟩ := h t (List.mem_cons_self t ts)
      cases t with
      | nil => exact absurd rfl hne
      | cons x t2 =>
        exact ⟨x, t2 ++ joinRest ts, by simp [joinTokens], hch x (List.mem_cons_self x t2)⟩
    unfold trimWs
    have h1 : (lead ++ joinTokens (t :: ts) ++ trail).dropWhile isJsWs =
        joinTokens (t :: ts) ++ trail := by
      rcases hlead with h1 | h1 <;> subst h1 <;>
        simp [hMeq, List.dropWhile, hx, (by decide : isJsWs ' ' = true)]
    rw [h1, List.reverse_append]
    have h2 : (trail.reverse ++ (joinTokens (t :: ts)).reverse).dropWhile isJsWs =
        ((joinTokens (t :: ts)).reverse).dropWhile isJsWs := by
      rcases htrail with h2 | h2 <;> subst h2 <;>
        simp [List.dropWhile, (by decide : isJsWs ' ' = true)]
    rw [h2, reverse_joinTokens, dropWhile_ws_joinTokens _ hprops2,
      ← reverse_joinTokens, List.reverse_reverse]

/-- The normalization pipeline (collapse whitespace runs, then trim) is the
single-space join of the whitespace-separated tokens: normalized content
depends only on the token list. -/
theorem normalizeWs_eq_joinTokens (s : String) :
    normalizeWs s = String.mk (joinTokens (wsTokens s.data)) := by
  unfold normalizeWs
  rw [collapse_decomp]
  congr 1
  apply trim_decomp
  · by_cases h : startsWs s.data <;> simp [h]
  · by_cases h : endsWs s.data = true ∧ wsTokens s.data ≠ [] <;> simp [h]
  · exact wsTokens_props s.data

/-- C6 (amended): computeMessageHash of message-dedup.ts — the fingerprint
that normalizes — produces the same fingerprint for any two contents that
differ only in whitespace runs and leading/trailing whitespace (same
wsTokens), for any recipient. The claim fails for the other fingerprint
helper, hashContent of persistent-dedup.ts, which hashes the raw content: see
the counterexample. -/
theorem computeMessageHash_ws_normalization (toAgentId c1 c2 : String)
    (h : wsTokens c1.data = wsTokens c2.data) :
    computeMessageHash toAgentId c1 = computeMessageHash toAgentId c2 := by
  unfold computeMessageHash
  rw [normalizeWs_eq_joinTokens, normalizeWs_eq_joinTokens, h]

/-- Witness for C6 at the spec's own example pair. -/
theorem computeMessageHash_ws_normalization_witness :
    wsTokens ("hello   world").data = wsTokens ("hello world").data ∧
    computeMessageHash "agent1" "hello   world" = computeMessageHash "agent1" "hello world" :=
  ⟨by decide, computeMessageHash_ws_normalization "agent1" "hello   world" "hello world"
    (by decide)⟩

set_option maxRecDepth 10000 in
/-- C6 counterexample: the two example contents differ only in a whitespace
run, yet hashContent (persistent-dedup.ts) gives them different fingerprints,
because it performs no normalization before hashing. -/
theorem hashContent_no_normalization_counterexample :
    wsTokens ("hello   world").data = wsTokens ("hello world").data ∧
    hashContent "hello   world" ≠ hashContent "hello world" := by
  constructor
  · decide
  · decide
